import Mathlib

/-!
Verification of the nc2shp pipeline (nc2shp.py).

The script reads a gridded netCDF field, aggregates it over a time window
(`read_nc`), traces contour levels with matplotlib (`get_contours`), converts
every contour path into a shapely polygon and writes the polygons with their
level attribute to an ESRI shapefile (`write_shapefile`), and finally renders a
diagnostic figure read back from the shapefile
(`read_shapefile_and_plot_filled_contour`); `main` chains the stages and
`get_analysis_date` derives the analysis window.

Shallow embedding conventions:
* scalar values and time stamps are `Rat`;
* a 2D grid is flattened to a `List Rat` of cells (the `lev` squeeze of a
  length-1 vertical axis is outside the model: grids are already 2D);
* an xarray `DataArray` with a time dimension is a time-indexed `List` of
  grids, and a dataset maps variable names to such arrays plus a shared time
  coordinate;
* a Python exception is an `Except Err` error value; the `Err` constructor
  records which statement of the source raises (`VariableNotFound` for the
  `KeyError` of `ds[v]`, `DataUnavailable` for the `ValueError` of
  `times.min()` on an empty selection, `UnboundLocal` for the `NameError` on a
  variable that was never assigned, `ContourNotIncreasing` for matplotlib's
  rejection of non-increasing level lists, `WriteFailed` for an I/O error
  during `output.write`, `RenderFailed` for a failure inside the diagnostic
  render step);
* matplotlib's contour tracing is the external black box: it is a parameter
  `tracer` mapping the field and one level to the list of vertex paths traced
  for that level, and `ContourSet` mirrors `cs.levels` / `cs.collections`
  (one path collection per level, in level order, as matplotlib guarantees
  for an explicit increasing level list);
* the file system holds at most the one output path, so its state is
  `Option (Schema × List Feature)`; fiona's writer opens the target path
  directly, streams the features in order and closes the file even when a
  write raises, which the interpreter `writeFeatures` reproduces with an
  optional injected failure index.
-/

/-- Error kinds of the pipeline, one per raising statement of the source. -/
inductive Err where
  | VariableNotFound
  | DataUnavailable
  | UnboundLocal
  | ContourNotIncreasing
  | WriteFailed
  | RenderFailed
deriving DecidableEq, Repr

/-- A netCDF dataset: shared time coordinate plus named time-indexed arrays
of flattened 2D grids (xarray `Dataset` as opened by `read_nc`). -/
structure DataSet where
  times : List Rat
  data : List (String × List (List Rat))

/-- Well-formedness of a dataset whose grids have `n` cells: every variable
has one grid per time stamp and every grid has `n` cells. -/
def DataSet.WF (ds : DataSet) (n : Nat) : Prop :=
  ∀ p ∈ ds.data, p.2.length = ds.times.length ∧ ∀ g ∈ p.2, g.length = n

/-- `ds[v]`: look a variable up by name (first match, as in a Python dict). -/
def lookupVar (ds : DataSet) (v : String) : Option (List (List Rat)) :=
  (ds.data.find? (fun p => p.1 == v)).map (fun p => p.2)

/-- Keep the entries of `xs` whose position is marked `true` in `mask`
(label-based selection along the time axis). -/
def applyMask {α : Type} (mask : List Bool) (xs : List α) : List α :=
  (xs.zip mask).filterMap (fun p => if p.2 then some p.1 else none)

/-- The boolean membership mask of the closed window `[s, e]` over a time
coordinate (xarray's `slice(start, end)` is inclusive at both ends). -/
def timeMask (times : List Rat) (s e : Rat) : List Bool :=
  times.map (fun t => decide (s ≤ t) && decide (t ≤ e))

/-- `ds.sel(time=slice(start, end))`: restrict the time coordinate and every
variable to the window. -/
def selTime (ds : DataSet) (s e : Rat) : DataSet :=
  ⟨applyMask (timeMask ds.times s e) ds.times,
   ds.data.map (fun p => (p.1, applyMask (timeMask ds.times s e) p.2))⟩

/-- Element-wise sum of two time-indexed arrays (`arrs + ds[v]`). -/
def addGrids (a b : List (List Rat)) : List (List Rat) :=
  List.zipWith (fun g h => List.zipWith (fun x y => x + y) g h) a b

/-- The accumulation loop `for c, v in enumerate(vars)` after the first
variable: add each remaining variable onto the accumulator, failing on the
first absent name. -/
def sumVarsAux (ds : DataSet) (acc : List (List Rat)) :
    List String → Except Err (List (List Rat))
  | [] => .ok acc
  | v :: vs =>
    match lookupVar ds v with
    | none => .error .VariableNotFound
    | some g => sumVarsAux ds (addGrids acc g) vs

/-- The whole variable loop of `read_nc`: with no variable at all, `arrs` is
never assigned and its first use raises (`UnboundLocal`); otherwise the named
variables are summed element-wise, failing on an absent name. -/
def sumVars (ds : DataSet) : List String → Except Err (List (List Rat))
  | [] => .error .UnboundLocal
  | v :: vs =>
    match lookupVar ds v with
    | none => .error .VariableNotFound
    | some g => sumVarsAux ds g vs

/-- Per-cell fold of a binary operation over the time axis of a time-indexed
array (the shape shared by xarray's `mean`/`max`/`min` over `dim='time'`). -/
def cellFold (f : Rat → Rat → Rat) : List (List Rat) → List Rat
  | [] => []
  | g :: gs => gs.foldl (fun acc h => List.zipWith f acc h) g

/-- `arrs.mean(dim='time')`: per-cell sum divided by the number of samples. -/
def meanCells (arrs : List (List Rat)) : List Rat :=
  (cellFold (fun x y => x + y) arrs).map (fun x => x / (arrs.length : Rat))

/-- `arrs.max(dim='time')`: per-cell maximum over the samples. -/
def maxCells (arrs : List (List Rat)) : List Rat :=
  cellFold max arrs

/-- `arrs.min(dim='time')`: per-cell minimum over the samples. -/
def minCells (arrs : List (List Rat)) : List Rat :=
  cellFold min arrs

/-- The reducer dispatch of `read_nc`: three independent `if` statements
assign `arr`; any other reducer name leaves `arr` unassigned, so its next
use raises (`UnboundLocal`). -/
def reduceTime (func : String) (arrs : List (List Rat)) : Except Err (List Rat) :=
  if func = "mean" then .ok (meanCells arrs)
  else if func = "max" then .ok (maxCells arrs)
  else if func = "min" then .ok (minCells arrs)
  else .error .UnboundLocal

/-- `m + (times - m).mean()` with `m = times.min()`: the representative time
stamp of the selected window. -/
def meanTimeOf (times : List Rat) : Rat :=
  let m := times.foldl min (times.headD 0)
  m + ((times.map (fun t => t - m)).sum / (times.length : Rat))

/-- `read_nc`: slice the time window only when the source has more than one
time stamp, sum the named variables element-wise, compute the representative
time stamp (raising on an empty selection), reduce over time with the named
reducer, and apply the scale factor when it is not 1. Returns the 2D field
and the representative time stamp. -/
def read_nc (ds : DataSet) (s e : Rat) (vars : List String) (scal : Rat)
    (func : String) : Except Err (List Rat × Rat) :=
  let ds := if 1 < ds.times.length then selTime ds s e else ds
  match sumVars ds vars with
  | .error er => .error er
  | .ok arrs =>
    if ds.times.isEmpty then
      .error .DataUnavailable
    else
      let meantime := meanTimeOf ds.times
      match reduceTime func arrs with
      | .error er => .error er
      | .ok arr =>
        .ok ((if scal ≠ 1 then arr.map (fun x => x * scal) else arr), meantime)

/-- matplotlib `ContourSet` as used by `write_shapefile`: the level list and,
aligned with it, one path collection per level. -/
structure ContourSet where
  levels : List Rat
  collections : List (List (List (Rat × Rat)))

/-- matplotlib's check on an explicit level list: the levels must be strictly
increasing, otherwise `plt.contour` raises. -/
def increasing : List Rat → Bool
  | [] => true
  | [_] => true
  | a :: b :: t => decide (a < b) && increasing (b :: t)

/-- `get_contours`: hand the field and the level list to `plt.contour`. The
tracing itself is the external black box `tracer` (field and one level in,
vertex paths out); matplotlib rejects a non-increasing level list and
otherwise returns a `ContourSet` whose `levels` are exactly the given list
with the collections aligned to it in the same order. -/
def get_contours (arr : List Rat) (contours : List Rat)
    (tracer : List Rat → Rat → List (List (Rat × Rat))) :
    Except Err ContourSet :=
  if increasing contours then
    .ok ⟨contours, contours.map (tracer arr)⟩
  else
    .error .ContourNotIncreasing

/-- `geometry.Polygon([(i[0], i[1]) for i in zip(lons, lats)])` with
`lons = v[:, 0]` and `lats = v[:, 1]`: split the vertex array into its two
columns and re-pair them; the polygon's exterior ring is that vertex list. -/
def mkPolygon (v : List (Rat × Rat)) : List (Rat × Rat) :=
  List.zip (v.map (fun i => i.1)) (v.map (fun i => i.2))

/-- One record appended to `polylist`: the polygon and its single property
`{propname: z}`. -/
structure Feature where
  poly : List (Rat × Rat)
  propname : String
  propval : Rat
deriving DecidableEq, Repr

/-- The shapefile schema `{'geometry': 'Polygon', 'properties': {propname: 'float'}}`. -/
structure Schema where
  geometry : String
  propname : String
  proptype : String
deriving DecidableEq, Repr

/-- The schema declared by `write_shapefile` for a given property name. -/
def mkSchema (propname : String) : Schema :=
  ⟨"Polygon", propname, "float"⟩

/-- The `polylist` loop of `write_shapefile`: walk `cs.collections` in order,
pair each collection with its level (`levels = dict(zip(cs.collections,
cs.levels))` — the collections are distinct matplotlib artists, one per
level), and emit one feature per path of the collection. -/
def polylistOf (cs : ContourSet) (propname : String) : List Feature :=
  (List.zip cs.collections cs.levels).flatMap
    (fun p => p.1.map (fun path => ⟨mkPolygon path, propname, p.2⟩))

/-- The state of the output path: absent, or a file holding the declared
schema and the features streamed into it so far. -/
structure FS where
  file : Option (Schema × List Feature)
deriving DecidableEq, Repr

/-- fiona's writer inside the `with` block: opening creates the file at the
target path with the schema, the features are streamed in order, and the
file is closed (and left on disk) even when a write raises. `failAt = some k`
injects an I/O failure at the k-th `output.write`; the file then keeps the
features written before the failure. -/
def writeFeatures (schema : Schema) (feats : List Feature) (failAt : Option Nat) :
    FS × Except Err Unit :=
  match failAt with
  | none => (⟨some (schema, feats)⟩, .ok ())
  | some k =>
    if k < feats.length then (⟨some (schema, feats.take k)⟩, .error .WriteFailed)
    else (⟨some (schema, feats)⟩, .ok ())

/-- `write_shapefile`: build `polylist` from the contour set, declare the
schema, and stream every feature to the output path. Returns the file-system
state and, on success, the written feature list. -/
def write_shapefile (cs : ContourSet) (propname : String) (failAt : Option Nat) :
    FS × Except Err (List Feature) :=
  let polylist := polylistOf cs propname
  let r := writeFeatures (mkSchema propname) polylist failAt
  match r.2 with
  | .ok _ => (r.1, .ok polylist)
  | .error er => (r.1, .error er)

/-- `read_shapefile_and_plot_filled_contour`: returns immediately when the
figure path is `None`; logs and returns (without raising) when the shapefile
path is `None`; otherwise performs the external read/render work, whose
outcome is the parameter `ext`. No exception handler wraps it. -/
def renderStep (figOut shapefilePath : Option String) (ext : Except Err Unit) :
    Except Err Unit :=
  match figOut with
  | none => .ok ()
  | some _ =>
    match shapefilePath with
    | none => .ok ()
    | some _ => ext

/-- `main`: read the field, trace the contours, write the shapefile, render
the diagnostic figure — in that order, with no `try`/`except` anywhere, so
the first exception of any stage propagates out of the process. Returns the
final file-system state and the process outcome (the written features on
success). -/
def mainRun (ds : DataSet) (s e : Rat) (vars : List String) (scal : Rat)
    (func : String) (contours : List Rat)
    (tracer : List Rat → Rat → List (List (Rat × Rat))) (propname : String)
    (shapefilePath figOut : Option String) (failAt : Option Nat)
    (renderExt : Except Err Unit) : FS × Except Err (List Feature) :=
  match read_nc ds s e vars scal func with
  | .error er => (⟨none⟩, .error er)
  | .ok (arr, _) =>
    match get_contours arr contours tracer with
    | .error er => (⟨none⟩, .error er)
    | .ok cs =>
      let r := write_shapefile cs propname failAt
      match r.2 with
      | .error er => (r.1, .error er)
      | .ok feats =>
        match renderStep figOut shapefilePath renderExt with
        | .error er => (r.1, .error er)
        | .ok _ => (r.1, .ok feats)

/-- Number of distinct vertices of a ring. -/
def distinctVertexCount (ring : List (Rat × Rat)) : Nat :=
  ring.dedup.length

/-- Twice the signed shoelace area of a ring read cyclically (vertex i paired
with vertex i+1, the last with the first). -/
def shoelace (ring : List (Rat × Rat)) : Rat :=
  ((ring.zip (ring.rotate 1)).map
    (fun p => p.1.1 * p.2.2 - p.2.1 * p.1.2)).sum

/-- A degenerate ring in the sense of the specification: fewer than 3
distinct vertices, or zero enclosed area. -/
def isDegenerate (ring : List (Rat × Rat)) : Bool :=
  decide (distinctVertexCount ring < 3) || decide (shoelace ring = 0)

/-- Days from 1970-01-01 to the civil date y-m-d in the proleptic Gregorian
calendar (the calendar of Python's `datetime`). -/
def daysFromCivil (y : Int) (m d : Nat) : Int :=
  let y' := if m ≤ 2 then y - 1 else y
  let era := (if 0 ≤ y' then y' else y' - 399) / 400
  let yoe := (y' - era * 400).toNat
  let mp := (m + 9) % 12
  let doy := (153 * mp + 2) / 5 + d - 1
  let doe := yoe * 365 + yoe / 4 - yoe / 100 + doy
  era * 146097 + (doe : Int) - 719468

/-- `dt.datetime(y, m, d, h, mi, s)` as seconds on the absolute timeline
(Python datetime arithmetic is arithmetic on this timeline). -/
def dtDatetime (y : Int) (m d h mi s : Nat) : Int :=
  ((daysFromCivil y m d * 24 + h) * 60 + mi) * 60 + s

/-- `get_analysis_date`: `ty/tm/td` are the civil components of yesterday
(`dt.datetime.today() - timedelta(days=1)`, the external clock); each of
year, month and day independently falls back to yesterday's component when
the argument is `None`; the start is that date at 00:00:00 and the end is
the start plus `time_window` hours. -/
def get_analysis_date (ty : Int) (tm td : Nat)
    (year : Option Int) (month day : Option Nat) (time_window : Int) :
    Int × Int :=
  let y := year.getD ty
  let m := month.getD tm
  let d := day.getD td
  let start := dtDatetime y m d 0 0 0
  (start, start + time_window * 3600)

/-- Value of variable `nm` at time index `t`, cell `j` (0 outside bounds). -/
def specVarCell (ds : DataSet) (nm : String) (t j : Nat) : Rat :=
  (((lookupVar ds nm).getD []).getD t []).getD j 0

/-- Stated from the spec's words: the element-wise sum of the named
variables at time index `t`, cell `j`. -/
def specSummedCell (ds : DataSet) (names : List String) (t j : Nat) : Rat :=
  (names.map (fun nm => specVarCell ds nm t j)).sum

/-- The time series of the summed variables at cell `j`. -/
def seriesAt (ds : DataSet) (names : List String) (j : Nat) : List Rat :=
  (List.range ds.times.length).map (fun t => specSummedCell ds names t j)

/-- Stated from the spec's words: the arithmetic mean of a time series. -/
def specMeanSeries (c : List Rat) : Rat :=
  c.sum / (c.length : Rat)

/-- Stated from the spec's words: the maximum of a time series. -/
def specMaxSeries (c : List Rat) : Rat :=
  c.foldl max (c.headD 0)

/-- Stated from the spec's words: the minimum of a time series. -/
def specMinSeries (c : List Rat) : Rat :=
  c.foldl min (c.headD 0)

/-- A ring with three distinct collinear vertices: zero enclosed area, hence
degenerate in the sense of the specification. -/
def degenRing : List (Rat × Rat) := [(0, 0), (1, 1), (2, 2)]

/-- A tracer that reports exactly one (degenerate) ring at every level. -/
def degenTracer : List Rat → Rat → List (List (Rat × Rat)) :=
  fun _ _ => [degenRing]

/-- The contour set matplotlib returns for level list `[25]` under
`degenTracer`. -/
def csDegen : ContourSet := ⟨[25], List.map (degenTracer []) [25]⟩

/-- Two valid square rings used by the writer counterexample. -/
def ringA : List (Rat × Rat) := [(0, 0), (1, 0), (1, 1), (0, 1), (0, 0)]

/-- Second square ring, shifted. -/
def ringB : List (Rat × Rat) := [(4, 4), (5, 4), (5, 5), (4, 5), (4, 4)]

/-- A two-level contour set with one ring per level. -/
def csTwo : ContourSet := ⟨[10, 25], [[ringA], [ringB]]⟩

/-- A single-time-sample dataset whose one time stamp (5) lies outside the
window `[0, 1]`. -/
def dsSingle : DataSet := ⟨[5], [("a", [[1]])]⟩

/-- A two-sample, two-variable dataset on a 2-cell grid. -/
def dsTwo : DataSet :=
  ⟨[0, 1], [("a", [[1, 2], [3, 4]]), ("b", [[10, 10], [20, 20]])]⟩

/-- A tracer that reports no ring at any level. -/
def zeroTracer : List Rat → Rat → List (List (Rat × Rat)) :=
  fun _ _ => []

/-- A tracer with one valid ring per level, distinguishing the levels. -/
def twoTracer : List Rat → Rat → List (List (Rat × Rat)) :=
  fun _ L => if L < 20 then [ringA] else [ringB]

lemma nc_mkPolygon_eq (v : List (Rat × Rat)) : mkPolygon v = v := by
  induction v with
  | nil => rfl
  | cons a t ih =>
    simp only [mkPolygon, List.map_cons, List.zip_cons_cons] at *
    rw [ih]

lemma nc_polylist_eq (contours : List Rat)
    (tr : Rat → List (List (Rat × Rat))) (p : String) :
    polylistOf ⟨contours, contours.map tr⟩ p =
      contours.flatMap (fun L => (tr L).map (fun path => Feature.mk path p L)) := by
  unfold polylistOf
  induction contours with
  | nil => rfl
  | cons L t ih =>
    simp only [List.map_cons, List.zip_cons_cons, List.flatMap_cons] at *
    rw [ih]
    simp [nc_mkPolygon_eq]

/-- C10: `get_analysis_date` defaults year, month and day independently to
yesterday's components, returns midnight of the resulting date as the start,
and the end is exactly the start plus `time_window` hours. -/
theorem C10_analysis_date (ty : Int) (tm td : Nat) (year : Option Int)
    (month day : Option Nat) (tw : Int) :
    get_analysis_date ty tm td year month day tw =
      (dtDatetime (year.getD ty) (month.getD tm) (day.getD td) 0 0 0,
       dtDatetime (year.getD ty) (month.getD tm) (day.getD td) 0 0 0 + tw * 3600) ∧
    (get_analysis_date ty tm td year month day tw).1 % 86400 = 0 ∧
    (get_analysis_date ty tm td year month day tw).2 =
      (get_analysis_date ty tm td year month day tw).1 + tw * 3600 := by
  refine ⟨rfl, ?_, rfl⟩
  have h : (get_analysis_date ty tm td year month day tw).1 =
      86400 * daysFromCivil (year.getD ty) (month.getD tm) (day.getD td) := by
    show dtDatetime (year.getD ty) (month.getD tm) (day.getD td) 0 0 0 = _
    unfold dtDatetime
    ring
  rw [h]
  exact Int.mul_emod_right _ _

/-- C9: for any reducer name other than "mean", "max" or "min", `read_nc`
never returns a field: the aggregated array is unassigned and its use
raises, so the result is an error for every input. -/
theorem C9_reducer_totality (ds : DataSet) (s e : Rat) (vars : List String)
    (scal : Rat) (func : String)
    (h : func ≠ "mean" ∧ func ≠ "max" ∧ func ≠ "min") :
    (read_nc ds s e vars scal func).isOk = false := by
  unfold read_nc
  rcases hs : sumVars (if 1 < ds.times.length then selTime ds s e else ds) vars with er | arrs
  · simp [hs, Except.isOk, Except.toBool]
  · by_cases he : (if 1 < ds.times.length then selTime ds s e else ds).times.isEmpty
    · simp [hs, he, Except.isOk, Except.toBool]
    · have hr : reduceTime func arrs = .error .UnboundLocal := by
        simp [reduceTime, h.1, h.2.1, h.2.2]
      simp [hs, he, hr, Except.isOk, Except.toBool]

/-- Witness for C9 at the reducer name "median" on a concrete dataset. -/
theorem C9_witness :
    (("median" ≠ "mean" ∧ "median" ≠ "max" ∧ "median" ≠ "min") ∧
     (read_nc dsSingle 0 1 ["a"] 1 "median").isOk = false) :=
  ⟨by decide, C9_reducer_totality dsSingle 0 1 ["a"] 1 "median" (by decide)⟩

lemma nc_filter_block (z L : Rat) (p : String) (paths : List (List (Rat × Rat))) :
    ((paths.map (fun path => Feature.mk path p z)).filter
      (fun f => f.propval == L)).length = if z = L then paths.length else 0 := by
  induction paths with
  | nil => simp
  | cons a t ih =>
    by_cases hz : z = L
    · subst hz
      simp only [List.map_cons, List.filter_cons]
      simp [ih]
    · simp only [List.map_cons, List.filter_cons] at *
      simp [hz] at *

lemma nc_count_flatMap (tr : Rat → List (List (Rat × Rat))) (p : String)
    (contours : List Rat) (hnd : contours.Nodup) (L : Rat) (hL : L ∈ contours) :
    ((contours.flatMap (fun z => (tr z).map (fun path => Feature.mk path p z))).filter
      (fun f => f.propval == L)).length = (tr L).length := by
  induction contours with
  | nil => cases hL
  | cons z t ih =>
    simp only [List.flatMap_cons, List.filter_append, List.length_append]
    rcases List.mem_cons.mp hL with h | h
    · subst h
      have hb := nc_filter_block L L p (tr L)
      simp at hb
      rw [hb]
      have ht : ((t.flatMap (fun z => (tr z).map (fun path => Feature.mk path p z))).filter
          (fun f => f.propval == L)).length = 0 := by
        rw [List.length_eq_zero, List.filter_eq_nil_iff]
        intro f hf
        simp only [List.mem_flatMap, List.mem_map] at hf
        obtain ⟨z', hz', path, _, rfl⟩ := hf
        have : z' ≠ L := fun h => (List.nodup_cons.mp hnd).1 (h ▸ hz')
        simp [this]
      omega
    · have hzL : z ≠ L := fun hzz => (List.nodup_cons.mp hnd).1 (hzz ▸ h)
      rw [nc_filter_block, if_neg hzL, ih (List.nodup_cons.mp hnd).2 h]
      omega

lemma nc_get_contours_ok (arr : List Rat) (contours : List Rat)
    (tracer : List Rat → Rat → List (List (Rat × Rat))) (cs : ContourSet)
    (h : get_contours arr contours tracer = .ok cs) :
    cs = ⟨contours, contours.map (tracer arr)⟩ ∧ increasing contours = true := by
  unfold get_contours at h
  by_cases hi : increasing contours
  · simp [hi] at h
    exact ⟨h.symm, hi⟩
  · simp [hi] at h

lemma nc_polymap (cols : List (List (List (Rat × Rat)))) (lvls : List Rat)
    (p : String) (h : cols.length = lvls.length) :
    (polylistOf ⟨lvls, cols⟩ p).map (fun f => f.poly) = cols.flatten := by
  unfold polylistOf
  induction cols generalizing lvls with
  | nil => simp
  | cons c ct ih =>
    cases lvls with
    | nil => simp at h
    | cons l lt =>
      simp only [List.zip_cons_cons, List.flatMap_cons, List.map_append,
        List.flatten_cons]
      rw [ih lt (by simpa using h)]
      congr 1
      simp [List.map_map, Function.comp_def, nc_mkPolygon_eq]

/-- C7: when the contour stage accepts the caller-supplied level list, the
features of the written collection are grouped by level in exactly the
caller-supplied level order: the sequence of written attribute values is the
concatenation, in caller order, of each level repeated once per ring traced
for it. -/
theorem C7_level_ordering (arr : List Rat) (contours : List Rat)
    (tracer : List Rat → Rat → List (List (Rat × Rat))) (cs : ContourSet)
    (p : String) (h : get_contours arr contours tracer = .ok cs) :
    (write_shapefile cs p none).2 = .ok (polylistOf cs p) ∧
    (write_shapefile cs p none).1.file = some (mkSchema p, polylistOf cs p) ∧
    (polylistOf cs p).map (fun f => f.propval) =
      contours.flatMap (fun L => List.replicate (tracer arr L).length L) := by
  obtain ⟨rfl, _⟩ := nc_get_contours_ok arr contours tracer cs h
  refine ⟨rfl, rfl, ?_⟩
  rw [nc_polylist_eq]
  simp [List.map_flatMap, List.map_map, Function.comp_def, List.map_const']

/-- Witness for C7 on two levels with one ring each. -/
theorem C7_witness :
    get_contours [] [10, 25] twoTracer =
      .ok ⟨[10, 25], List.map (twoTracer []) [10, 25]⟩ ∧
    (polylistOf ⟨[10, 25], List.map (twoTracer []) [10, 25]⟩ "pm25").map
        (fun f => f.propval) =
      [10, 25].flatMap (fun L => List.replicate (twoTracer [] L).length L) := by
  have hok : get_contours [] [10, 25] twoTracer =
      .ok ⟨[10, 25], List.map (twoTracer []) [10, 25]⟩ := by
    norm_num [get_contours, increasing]
  exact ⟨hok, (C7_level_ordering [] [10, 25] twoTracer _ "pm25" hok).2.2⟩

/-- C6 counterexample: a ring with zero enclosed area (three collinear
vertices) is degenerate in the sense of the claim, yet the writer builds a
polygon from it and writes it to the output collection — nothing is
discarded. -/
theorem C6_counterexample :
    isDegenerate degenRing = true ∧
    get_contours [] [25] degenTracer = .ok csDegen ∧
    (write_shapefile csDegen "pm25" none).2 = .ok (polylistOf csDegen "pm25") ∧
    (polylistOf csDegen "pm25").map (fun f => f.poly) = [degenRing] := by
  refine ⟨?_, ?_, rfl, ?_⟩
  · have h0 : shoelace degenRing = 0 := by
      norm_num [shoelace, degenRing, List.rotate]
    simp [isDegenerate, h0]
  · norm_num [get_contours, increasing, csDegen]
  · simp [polylistOf, csDegen, degenTracer, nc_mkPolygon_eq]

/-- C6 (amended): `write_shapefile` performs no degenerate-ring filtering:
every ring reported by extraction, degenerate or not, is built into a
polygon and written, so the written polygons are exactly the concatenation
of all extracted rings. -/
theorem C6_no_filtering (cs : ContourSet) (p : String)
    (h : cs.collections.length = cs.levels.length) :
    (write_shapefile cs p none).2 = .ok (polylistOf cs p) ∧
    (polylistOf cs p).map (fun f => f.poly) = cs.collections.flatten := by
  obtain ⟨lvls, cols⟩ := cs
  exact ⟨rfl, nc_polymap cols lvls p h⟩

/-- Witness for C6 (amended) at the degenerate one-ring contour set. -/
theorem C6_witness :
    csDegen.collections.length = csDegen.levels.length ∧
    ((write_shapefile csDegen "pm25" none).2 = .ok (polylistOf csDegen "pm25") ∧
     (polylistOf csDegen "pm25").map (fun f => f.poly) =
       csDegen.collections.flatten) :=
  ⟨rfl, C6_no_filtering csDegen "pm25" rfl⟩

/-- C1 counterexample: extraction reports one ring for level 25 and that
ring is degenerate (zero non-degenerate rings), yet one feature is written
for level 25 — the written count equals the count of all reported rings,
not of the non-degenerate ones. -/
theorem C1_counterexample :
    get_contours [] [25] degenTracer = .ok csDegen ∧
    (write_shapefile csDegen "pm25" none).2 = .ok (polylistOf csDegen "pm25") ∧
    ((polylistOf csDegen "pm25").filter (fun f => f.propval == (25 : Rat))).length = 1 ∧
    ((degenTracer [] 25).filter (fun r => ! isDegenerate r)).length = 0 ∧
    ((polylistOf csDegen "pm25").filter (fun f => f.propval == (25 : Rat))).length ≠
      ((degenTracer [] 25).filter (fun r => ! isDegenerate r)).length := by
  have h0 : shoelace degenRing = 0 := by
    norm_num [shoelace, degenRing, List.rotate]
  have hdeg : isDegenerate degenRing = true := by
    simp [isDegenerate, h0]
  refine ⟨?_, rfl, ?_, ?_, ?_⟩
  · norm_num [get_contours, increasing, csDegen]
  · simp [polylistOf, csDegen, degenTracer]
  · simp [degenTracer, hdeg]
  · simp [polylistOf, csDegen, degenTracer, hdeg]

/-- C1 (amended): every written attribute value is one of the requested
levels, and for each requested level the number of features written equals
the number of rings extraction reported for that level — all rings, since
the code drops nothing. -/
theorem C1_amended (arr : List Rat) (contours : List Rat)
    (tracer : List Rat → Rat → List (List (Rat × Rat))) (cs : ContourSet)
    (p : String) (h : get_contours arr contours tracer = .ok cs)
    (hnd : contours.Nodup) :
    (write_shapefile cs p none).2 = .ok (polylistOf cs p) ∧
    (∀ f ∈ polylistOf cs p, f.propval ∈ contours) ∧
    ∀ L ∈ contours,
      ((polylistOf cs p).filter (fun f => f.propval == L)).length =
        (tracer arr L).length := by
  obtain ⟨rfl, _⟩ := nc_get_contours_ok arr contours tracer cs h
  refine ⟨rfl, ?_, ?_⟩
  · intro f hf
    rw [nc_polylist_eq] at hf
    simp only [List.mem_flatMap, List.mem_map] at hf
    obtain ⟨L, hL, path, _, rfl⟩ := hf
    exact hL
  · intro L hL
    rw [nc_polylist_eq]
    exact nc_count_flatMap (tracer arr) p contours hnd L hL

/-- Witness for C1 (amended) at the degenerate one-ring contour set. -/
theorem C1_witness :
    get_contours [] [25] degenTracer = .ok csDegen ∧ ([25] : List Rat).Nodup ∧
    ((write_shapefile csDegen "pm25" none).2 = .ok (polylistOf csDegen "pm25") ∧
     (∀ f ∈ polylistOf csDegen "pm25", f.propval ∈ [25]) ∧
     ∀ L ∈ ([25] : List Rat),
       ((polylistOf csDegen "pm25").filter (fun f => f.propval == L)).length =
         (degenTracer [] L).length) := by
  have hok : get_contours [] [25] degenTracer = .ok csDegen := by
    norm_num [get_contours, increasing, csDegen]
  exact ⟨hok, by simp, C1_amended [] [25] degenTracer csDegen "pm25" hok (by simp)⟩

/-- C3 counterexample: an I/O failure at the second write of a two-feature
collection raises, but the output file remains at the target path holding
the one feature written before the failure — neither "all features present"
nor "file absent". -/
theorem C3_counterexample :
    (polylistOf csTwo "pm25").length = 2 ∧
    (write_shapefile csTwo "pm25" (some 1)).2 = .error .WriteFailed ∧
    (write_shapefile csTwo "pm25" (some 1)).1.file =
      some (mkSchema "pm25", [⟨ringA, "pm25", 10⟩]) ∧
    (write_shapefile csTwo "pm25" (some 1)).1.file ≠ none := by
  refine ⟨?_, ?_, ?_, ?_⟩
  · simp [polylistOf, csTwo]
  · simp [write_shapefile, writeFeatures, polylistOf, csTwo]
  · simp [write_shapefile, writeFeatures, polylistOf, csTwo, nc_mkPolygon_eq]
  · simp [write_shapefile, writeFeatures, polylistOf, csTwo]

/-- C3 (amended): after a successful return the file holds every feature,
and the result carries them all; an I/O failure during serialization makes
the run fail with `WriteFailed`, but the write is not atomic: the file
remains at the output path holding exactly the features streamed before the
failure. -/
theorem C3_amended (cs : ContourSet) (p : String) :
    ((write_shapefile cs p none).1.file = some (mkSchema p, polylistOf cs p) ∧
     (write_shapefile cs p none).2 = .ok (polylistOf cs p)) ∧
    ∀ k, k < (polylistOf cs p).length →
      (write_shapefile cs p (some k)).2 = .error .WriteFailed ∧
      (write_shapefile cs p (some k)).1.file =
        some (mkSchema p, (polylistOf cs p).take k) := by
  refine ⟨⟨rfl, rfl⟩, ?_⟩
  intro k hk
  constructor
  · simp [write_shapefile, writeFeatures, hk]
  · simp [write_shapefile, writeFeatures, hk]

/-- Witness for C3 (amended) with a failure injected at the first write. -/
theorem C3_witness :
    (0 < (polylistOf csTwo "pm25").length) ∧
    ((write_shapefile csTwo "pm25" (some 0)).2 = .error .WriteFailed ∧
     (write_shapefile csTwo "pm25" (some 0)).1.file =
       some (mkSchema "pm25", (polylistOf csTwo "pm25").take 0)) :=
  ⟨by simp [polylistOf, csTwo],
   (C3_amended csTwo "pm25").2 0 (by simp [polylistOf, csTwo])⟩

/-- C4 counterexample: the geometry file is written successfully (it is
present and complete), yet a failure of the diagnostic render step
propagates out of `main` — there is no handler — so the overall outcome is
an error, not success. -/
theorem C4_counterexample :
    (mainRun dsSingle 0 1 ["a"] 1 "mean" [25] zeroTracer "pm25"
        (some "f.shp") (some "fig.png") none (.error .RenderFailed)).2 =
      .error .RenderFailed ∧
    (mainRun dsSingle 0 1 ["a"] 1 "mean" [25] zeroTracer "pm25"
        (some "f.shp") (some "fig.png") none (.error .RenderFailed)).1.file =
      some (mkSchema "pm25", []) := by
  constructor <;>
    norm_num [mainRun, read_nc, sumVars, sumVarsAux, lookupVar, meanTimeOf,
      reduceTime, meanCells, cellFold, selTime, dsSingle, get_contours,
      increasing, zeroTracer, write_shapefile, writeFeatures, polylistOf,
      renderStep]

/-- C4 (amended): with the field read and contour extraction successful and
the write clean, a failure of the render step is not caught: it becomes the
overall outcome of the run even though the geometry file is already complete
on disk; only when the diagnostic figure path is `None` is the render step
skipped and the run succeeds. -/
theorem C4_render_fatal (ds : DataSet) (s e : Rat) (vars : List String)
    (scal : Rat) (func : String) (contours : List Rat)
    (tracer : List Rat → Rat → List (List (Rat × Rat))) (p : String)
    (sp fo : String) (renderExt : Except Err Unit) (arr : List Rat) (mt : Rat)
    (cs : ContourSet)
    (hr : read_nc ds s e vars scal func = .ok (arr, mt))
    (hc : get_contours arr contours tracer = .ok cs) :
    (∀ er, renderExt = .error er →
      (mainRun ds s e vars scal func contours tracer p (some sp) (some fo)
          none renderExt).2 = .error er ∧
      (mainRun ds s e vars scal func contours tracer p (some sp) (some fo)
          none renderExt).1.file = some (mkSchema p, polylistOf cs p)) ∧
    (mainRun ds s e vars scal func contours tracer p (some sp) none
        none renderExt).2 = .ok (polylistOf cs p) := by
  constructor
  · intro er hre
    subst hre
    constructor <;>
      simp [mainRun, hr, hc, write_shapefile, writeFeatures, renderStep]
  · simp [mainRun, hr, hc, write_shapefile, writeFeatures, renderStep]

/-- Witness for C4 (amended) on the concrete single-sample pipeline. -/
theorem C4_witness :
    read_nc dsSingle 0 1 ["a"] 1 "mean" = .ok ([1], 5) ∧
    get_contours [1] [25] zeroTracer = .ok ⟨[25], List.map (zeroTracer [1]) [25]⟩ ∧
    ((mainRun dsSingle 0 1 ["a"] 1 "mean" [25] zeroTracer "pm25"
        (some "f.shp") (some "fig.png") none (.error .RenderFailed)).2 =
      .error .RenderFailed ∧
     (mainRun dsSingle 0 1 ["a"] 1 "mean" [25] zeroTracer "pm25"
        (some "f.shp") (some "fig.png") none (.error .RenderFailed)).1.file =
      some (mkSchema "pm25",
        polylistOf ⟨[25], List.map (zeroTracer [1]) [25]⟩ "pm25")) := by
  have hr : read_nc dsSingle 0 1 ["a"] 1 "mean" = .ok ([1], 5) := by
    norm_num [read_nc, sumVars, sumVarsAux, lookupVar, meanTimeOf, reduceTime,
      meanCells, cellFold, selTime, dsSingle]
  have hc : get_contours [1] [25] zeroTracer =
      .ok ⟨[25], List.map (zeroTracer [1]) [25]⟩ := by
    norm_num [get_contours, increasing]
  exact ⟨hr, hc,
    (C4_render_fatal dsSingle 0 1 ["a"] 1 "mean" [25] zeroTracer "pm25"
      "f.shp" "fig.png" (.error .RenderFailed) [1] 5 _ hr hc).1 .RenderFailed rfl⟩

lemma nc_lookupVar_selTime (ds : DataSet) (s e : Rat) (v : String) :
    lookupVar (selTime ds s e) v =
      (lookupVar ds v).map (applyMask (timeMask ds.times s e)) := by
  unfold lookupVar selTime
  induction ds.data with
  | nil => rfl
  | cons p t ih =>
    by_cases hv : p.1 == v
    · simp [List.find?_cons, hv]
    · simp only [List.map_cons, List.find?_cons, hv] at *
      simpa using ih

lemma nc_sumVarsAux_absent (ds : DataSet) (acc : List (List Rat))
    (vs : List String) (h : ∃ v ∈ vs, lookupVar ds v = none) :
    sumVarsAux ds acc vs = .error .VariableNotFound := by
  induction vs generalizing acc with
  | nil => simp at h
  | cons v t ih =>
    rcases hv : lookupVar ds v with _ | g
    · simp [sumVarsAux, hv]
    · simp only [sumVarsAux, hv]
      obtain ⟨w, hw, hwn⟩ := h
      rcases List.mem_cons.mp hw with rfl | hwt
      · rw [hv] at hwn
        cases hwn
      · exact ih _ ⟨w, hwt, hwn⟩

lemma nc_sumVars_absent (ds : DataSet) (names : List String)
    (h : ∃ v ∈ names, lookupVar ds v = none) :
    sumVars ds names = .error .VariableNotFound := by
  cases names with
  | nil => simp at h
  | cons v t =>
    rcases hv : lookupVar ds v with _ | g
    · simp [sumVars, hv]
    · simp only [sumVars, hv]
      obtain ⟨w, hw, hwn⟩ := h
      rcases List.mem_cons.mp hw with rfl | hwt
      · rw [hv] at hwn
        cases hwn
      · exact nc_sumVarsAux_absent ds g t ⟨w, hwt, hwn⟩

lemma nc_sumVarsAux_present (ds : DataSet) (acc : List (List Rat))
    (vs : List String) (h : ∀ v ∈ vs, (lookupVar ds v).isSome) :
    ∃ S, sumVarsAux ds acc vs = .ok S := by
  induction vs generalizing acc with
  | nil => exact ⟨acc, rfl⟩
  | cons v t ih =>
    rcases hv : lookupVar ds v with _ | g
    · have := h v (List.mem_cons_self v t)
      rw [hv] at this
      cases this
    · simp only [sumVarsAux, hv]
      exact ih _ (fun w hw => h w (List.mem_cons_of_mem v hw))

lemma nc_sumVars_present (ds : DataSet) (names : List String)
    (hne : names ≠ []) (h : ∀ v ∈ names, (lookupVar ds v).isSome) :
    ∃ S, sumVars ds names = .ok S := by
  cases names with
  | nil => cases hne rfl
  | cons v t =>
    rcases hv : lookupVar ds v with _ | g
    · have := h v (List.mem_cons_self v t)
      rw [hv] at this
      cases this
    · simp only [sumVars, hv]
      exact nc_sumVarsAux_present ds g t (fun w hw => h w (List.mem_cons_of_mem v hw))

/-- C5 counterexample: a source with exactly one time sample, lying outside
the requested window, selects zero samples in the window, yet `read_nc`
succeeds and returns that sample's field — the single-sample case skips
window selection entirely instead of failing with `DataUnavailable`. -/
theorem C5_counterexample :
    applyMask (timeMask dsSingle.times 0 1) dsSingle.times = [] ∧
    read_nc dsSingle 0 1 ["a"] 1 "mean" = .ok ([1], 5) := by
  constructor
  · norm_num [applyMask, timeMask, dsSingle]
  · norm_num [read_nc, sumVars, sumVarsAux, lookupVar, meanTimeOf, reduceTime,
      meanCells, cellFold, selTime, dsSingle]

/-- C5 (amended): an absent variable identifier always fails with
`VariableNotFound` (the variable lookup precedes the time check); an empty
window selection fails with `DataUnavailable` only when the source has more
than one time sample — a single-sample source never enters window
selection. -/
theorem C5_selector_errors (ds : DataSet) (s e : Rat) (vars : List String)
    (scal : Rat) (func : String) :
    ((∃ v ∈ vars, lookupVar ds v = none) →
      read_nc ds s e vars scal func = .error .VariableNotFound) ∧
    (1 < ds.times.length →
      (∀ v ∈ vars, (lookupVar ds v).isSome) → vars ≠ [] →
      (selTime ds s e).times = [] →
      read_nc ds s e vars scal func = .error .DataUnavailable) := by
  constructor
  · intro h
    unfold read_nc
    by_cases hlen : 1 < ds.times.length
    · have habs : ∃ v ∈ vars, lookupVar (selTime ds s e) v = none := by
        obtain ⟨v, hv, hvn⟩ := h
        exact ⟨v, hv, by rw [nc_lookupVar_selTime, hvn]; rfl⟩
      simp only [if_pos hlen, nc_sumVars_absent _ _ habs]
    · simp only [if_neg hlen, nc_sumVars_absent _ _ h]
  · intro hlen hpres hne hempty
    unfold read_nc
    rw [if_pos hlen]
    have hpres' : ∀ v ∈ vars, (lookupVar (selTime ds s e) v).isSome := by
      intro v hv
      rw [nc_lookupVar_selTime]
      have := hpres v hv
      rcases hl : lookupVar ds v with _ | g
      · rw [hl] at this
        cases this
      · rfl
    obtain ⟨S, hS⟩ := nc_sumVars_present (selTime ds s e) vars hne hpres'
    simp only [if_pos hlen, hS, hempty]
    simp

/-- Witness for C5 (amended): an absent variable on the single-sample
source, and an empty window on a two-sample source. -/
theorem C5_witness :
    ((∃ v ∈ ["b"], lookupVar dsSingle v = none) ∧
     read_nc dsSingle 0 1 ["b"] 1 "mean" = .error .VariableNotFound) ∧
    ((1 < dsTwo.times.length ∧ (∀ v ∈ ["a", "b"], (lookupVar dsTwo v).isSome) ∧
      (selTime dsTwo 10 11).times = []) ∧
     read_nc dsTwo 10 11 ["a", "b"] 1 "mean" = .error .DataUnavailable) := by
  have h1 : ∃ v ∈ ["b"], lookupVar dsSingle v = none := by
    refine ⟨"b", by simp, ?_⟩
    simp [lookupVar, dsSingle]
  have h2a : (1:Nat) < dsTwo.times.length := by simp [dsTwo]
  have h2b : ∀ v ∈ ["a", "b"], (lookupVar dsTwo v).isSome := by
    intro v hv
    rcases List.mem_cons.mp hv with rfl | hv2
    · simp [lookupVar, dsTwo]
    · simp at hv2
      subst hv2
      simp [lookupVar, dsTwo]
  have h2c : (selTime dsTwo 10 11).times = [] := by
    norm_num [selTime, applyMask, timeMask, dsTwo]
  exact ⟨⟨h1, (C5_selector_errors dsSingle 0 1 ["b"] 1 "mean").1 h1⟩,
    ⟨⟨h2a, h2b, h2c⟩,
     (C5_selector_errors dsTwo 10 11 ["a", "b"] 1 "mean").2 h2a h2b
       (by simp) h2c⟩⟩

/-- C8: a requested level for which extraction reports no ring produces no
error: contour extraction succeeds, zero features carry that level, the run
succeeds, and the output file exists with the declared schema (holding
whatever features other levels produced). -/
theorem C8_empty_intersection (ds : DataSet) (s e : Rat) (vars : List String)
    (scal : Rat) (func : String) (arr : List Rat) (mt : Rat)
    (contours : List Rat) (tracer : List Rat → Rat → List (List (Rat × Rat)))
    (L : Rat) (p : String) (sp : String)
    (hr : read_nc ds s e vars scal func = .ok (arr, mt))
    (hinc : increasing contours = true) (hnd : contours.Nodup)
    (hL : L ∈ contours) (hz : tracer arr L = []) :
    get_contours arr contours tracer = .ok ⟨contours, contours.map (tracer arr)⟩ ∧
    (mainRun ds s e vars scal func contours tracer p (some sp) none none
        (.ok ())).2 = .ok (polylistOf ⟨contours, contours.map (tracer arr)⟩ p) ∧
    (mainRun ds s e vars scal func contours tracer p (some sp) none none
        (.ok ())).1.file =
      some (mkSchema p, polylistOf ⟨contours, contours.map (tracer arr)⟩ p) ∧
    ((polylistOf ⟨contours, contours.map (tracer arr)⟩ p).filter
      (fun f => f.propval == L)).length = 0 := by
  have hc : get_contours arr contours tracer =
      .ok ⟨contours, contours.map (tracer arr)⟩ := by
    simp [get_contours, hinc]
  refine ⟨hc, ?_, ?_, ?_⟩
  · simp [mainRun, hr, hc, write_shapefile, writeFeatures, renderStep]
  · simp [mainRun, hr, hc, write_shapefile, writeFeatures, renderStep]
  · rw [nc_polylist_eq, nc_count_flatMap (tracer arr) p contours hnd L hL, hz]
    rfl

/-- Witness for C8: level 25 is requested, traces nothing, and the run
succeeds with an empty but schema-bearing file. -/
theorem C8_witness :
    (read_nc dsSingle 0 1 ["a"] 1 "mean" = .ok ([1], 5) ∧
     increasing [10, 25] = true ∧ ([10, 25] : List Rat).Nodup ∧
     (25 : Rat) ∈ ([10, 25] : List Rat) ∧ zeroTracer [1] 25 = []) ∧
    ((mainRun dsSingle 0 1 ["a"] 1 "mean" [10, 25] zeroTracer "pm25"
        (some "f.shp") none none (.ok ())).2 =
      .ok (polylistOf ⟨[10, 25], List.map (zeroTracer [1]) [10, 25]⟩ "pm25") ∧
     ((polylistOf ⟨[10, 25], List.map (zeroTracer [1]) [10, 25]⟩ "pm25").filter
       (fun f => f.propval == (25 : Rat))).length = 0) := by
  have hr : read_nc dsSingle 0 1 ["a"] 1 "mean" = .ok ([1], 5) := by
    norm_num [read_nc, sumVars, sumVarsAux, lookupVar, meanTimeOf, reduceTime,
      meanCells, cellFold, selTime, dsSingle]
  have hinc : increasing [10, 25] = true := by
    norm_num [increasing]
  have h := C8_empty_intersection dsSingle 0 1 ["a"] 1 "mean" [1] 5 [10, 25]
    zeroTracer 25 "pm25" "f.shp" hr hinc (by norm_num) (by simp) rfl
  exact ⟨⟨hr, hinc, by norm_num, by simp, rfl⟩, h.2.1, h.2.2.2⟩

lemma nc_zipWith_getD {α β γ : Type} (f : α → β → γ) (a : List α) (b : List β)
    (da : α) (db : β) (dc : γ) (t : Nat) (ht : t < a.length) (ht2 : t < b.length) :
    (List.zipWith f a b).getD t dc = f (a.getD t da) (b.getD t db) := by
  induction a generalizing b t with
  | nil => simp at ht
  | cons x xs ih =>
    cases b with
    | nil => simp at ht2
    | cons y ys =>
      cases t with
      | zero => rfl
      | succ t' =>
        simp only [List.zipWith_cons_cons, List.getD_cons_succ]
        exact ih ys t' (by simpa using ht) (by simpa using ht2)

lemma nc_getD_map (f : Rat → Rat) (l : List Rat) (j : Nat) (hj : j < l.length) :
    (l.map f).getD j 0 = f (l.getD j 0) := by
  rw [List.getD_eq_getElem _ _ (by simpa using hj), List.getD_eq_getElem _ _ hj,
    List.getElem_map]

lemma nc_applyMask_all {α : Type} (mask : List Bool) (xs : List α)
    (hlen : mask.length = xs.length) (h : ∀ b ∈ mask, b = true) :
    applyMask mask xs = xs := by
  induction mask generalizing xs with
  | nil =>
    cases xs with
    | nil => rfl
    | cons x t => simp at hlen
  | cons b mt ih =>
    cases xs with
    | nil => simp at hlen
    | cons x t =>
      have hb : b = true := h b (List.mem_cons_self b mt)
      subst hb
      have htl : applyMask mt t = t :=
        ih t (by simpa using hlen) (fun c hc => h c (List.mem_cons_of_mem _ hc))
      simp only [applyMask, List.zip_cons_cons, List.filterMap_cons] at htl ⊢
      simp only [if_pos trivial]
      rw [htl]

lemma nc_selTime_id (ds : DataSet) (s e : Rat) (n : Nat) (hwf : ds.WF n)
    (h : ∀ t ∈ ds.times, s ≤ t ∧ t ≤ e) : selTime ds s e = ds := by
  have hmask : ∀ b ∈ timeMask ds.times s e, b = true := by
    intro b hb
    simp only [timeMask, List.mem_map] at hb
    obtain ⟨t, ht, rfl⟩ := hb
    simp [(h t ht).1, (h t ht).2]
  have hmlen : (timeMask ds.times s e).length = ds.times.length := by
    simp [timeMask]
  obtain ⟨times, data⟩ := ds
  simp only [selTime]
  congr 1
  · exact nc_applyMask_all _ _ hmlen hmask
  · have : ∀ p ∈ data, ((fun p => (p.1, applyMask (timeMask times s e) p.2)) p) = p := by
      intro p hp
      have hlen := (hwf p hp).1
      simp only
      rw [nc_applyMask_all _ _ (by rw [hmlen]; exact hlen.symm) hmask]
    calc data.map (fun p => (p.1, applyMask (timeMask times s e) p.2))
        = data.map id := List.map_congr_left this
      _ = data := List.map_id data

lemma nc_foldl_add (x : Rat) (xs : List Rat) : xs.foldl (fun a b => a + b) x = x + xs.sum := by
  induction xs generalizing x with
  | nil => simp
  | cons y ys ih =>
    simp only [List.foldl_cons, List.sum_cons, ih]
    ring

lemma nc_cellFold_step (f : Rat → Rat → Rat) (g : List Rat)
    (gs : List (List Rat)) (n : Nat) (hg : g.length = n)
    (hgs : ∀ h ∈ gs, h.length = n) :
    (gs.foldl (fun acc h => List.zipWith f acc h) g).length = n ∧
    ∀ j, j < n →
      (gs.foldl (fun acc h => List.zipWith f acc h) g).getD j 0 =
        gs.foldl (fun a h => f a (h.getD j 0)) (g.getD j 0) := by
  induction gs generalizing g with
  | nil => exact ⟨hg, fun j hj => rfl⟩
  | cons h t ih =>
    have hh : h.length = n := hgs h (List.mem_cons_self h t)
    have hzlen : (List.zipWith f g h).length = n := by
      simp [hg, hh]
    obtain ⟨l1, l2⟩ := ih (List.zipWith f g h) hzlen
      (fun w hw => hgs w (List.mem_cons_of_mem _ hw))
    refine ⟨l1, fun j hj => ?_⟩
    simp only [List.foldl_cons]
    rw [l2 j hj, nc_zipWith_getD f g h 0 0 0 j (by omega) (by omega)]

lemma nc_lookup_dims (ds : DataSet) (n : Nat) (hwf : ds.WF n) (v : String)
    (g : List (List Rat)) (h : lookupVar ds v = some g) :
    g.length = ds.times.length ∧ ∀ t, t < g.length → (g.getD t []).length = n := by
  unfold lookupVar at h
  rcases hf : ds.data.find? (fun p => p.1 == v) with _ | p
  · rw [hf] at h
    cases h
  · rw [hf] at h
    have h2 : p.2 = g := by simpa using h
    have hp := List.mem_of_find?_eq_some hf
    have hw := hwf p hp
    subst h2
    refine ⟨hw.1, fun t ht => ?_⟩
    rw [List.getD_eq_getElem _ _ ht]
    exact hw.2 _ (List.getElem_mem _)

lemma nc_addGrids_getD (acc g : List (List Rat)) (T : Nat)
    (hal : acc.length = T) (hgl : g.length = T)
    (t : Nat) (ht : t < T) :
    (addGrids acc g).getD t [] =
      List.zipWith (fun x y => x + y) (acc.getD t []) (g.getD t []) := by
  unfold addGrids
  exact nc_zipWith_getD _ acc g [] [] [] t (by omega) (by omega)

lemma nc_sumVarsAux_cells (ds : DataSet) (n : Nat) (hwf : ds.WF n)
    (vs : List String) (hpres : ∀ v ∈ vs, (lookupVar ds v).isSome) :
    ∀ acc, acc.length = ds.times.length →
      (∀ t, t < ds.times.length → (acc.getD t []).length = n) →
      ∃ S, sumVarsAux ds acc vs = .ok S ∧ S.length = ds.times.length ∧
        (∀ t, t < ds.times.length → (S.getD t []).length = n) ∧
        ∀ t j, t < ds.times.length → j < n →
          (S.getD t []).getD j 0 =
            (acc.getD t []).getD j 0 + (vs.map (fun v => specVarCell ds v t j)).sum := by
  induction vs with
  | nil =>
    intro acc hl hr
    exact ⟨acc, rfl, hl, hr, fun t j ht hj => by
      simp only [List.map_nil, List.sum_nil, add_zero]⟩
  | cons v t ih =>
    intro acc hl hr
    rcases hv : lookupVar ds v with _ | g
    · have := hpres v (List.mem_cons_self v t)
      rw [hv] at this
      cases this
    · obtain ⟨hgl, hgr⟩ := nc_lookup_dims ds n hwf v g hv
      have hal' : (addGrids acc g).length = ds.times.length := by
        simp [addGrids, hl, hgl]
      have har' : ∀ u, u < ds.times.length → ((addGrids acc g).getD u []).length = n := by
        intro u hu
        rw [nc_addGrids_getD acc g ds.times.length hl hgl u hu]
        simp only [List.length_zipWith]
        rw [hr u hu, hgr u (by omega)]
        simp
      obtain ⟨S, hS, hSl, hSr, hSc⟩ := ih
        (fun w hw => hpres w (List.mem_cons_of_mem _ hw)) (addGrids acc g) hal' har'
      refine ⟨S, ?_, hSl, hSr, ?_⟩
      · simp only [sumVarsAux, hv]
        exact hS
      · intro u j hu hj
        rw [hSc u j hu hj, nc_addGrids_getD acc g ds.times.length hl hgl u hu,
          nc_zipWith_getD _ _ _ 0 0 0 j (by rw [hr u hu]; exact hj)
            (by rw [hgr u (by omega)]; exact hj)]
        simp only [List.map_cons, List.sum_cons, specVarCell, hv, Option.getD_some]
        ring

lemma nc_sumVars_cells (ds : DataSet) (n : Nat) (hwf : ds.WF n)
    (names : List String) (hne : names ≠ [])
    (hpres : ∀ v ∈ names, (lookupVar ds v).isSome) :
    ∃ S, sumVars ds names = .ok S ∧ S.length = ds.times.length ∧
      (∀ t, t < ds.times.length → (S.getD t []).length = n) ∧
      ∀ t j, t < ds.times.length → j < n →
        (S.getD t []).getD j 0 = specSummedCell ds names t j := by
  cases names with
  | nil => cases hne rfl
  | cons v t =>
    rcases hv : lookupVar ds v with _ | g
    · have := hpres v (List.mem_cons_self v t)
      rw [hv] at this
      cases this
    · obtain ⟨hgl, hgr⟩ := nc_lookup_dims ds n hwf v g hv
      obtain ⟨S, hS, hSl, hSr, hSc⟩ := nc_sumVarsAux_cells ds n hwf t
        (fun w hw => hpres w (List.mem_cons_of_mem _ hw)) g hgl
        (fun u hu => hgr u (by omega))
      refine ⟨S, by simp only [sumVars, hv]; exact hS, hSl, hSr, ?_⟩
      intro u j hu hj
      rw [hSc u j hu hj]
      simp only [specSummedCell, List.map_cons, List.sum_cons, specVarCell, hv,
        Option.getD_some]

lemma nc_read_nc_eq (ds : DataSet) (s e : Rat) (names : List String)
    (scal : Rat) (func : String)
    (hds : (if 1 < ds.times.length then selTime ds s e else ds) = ds) :
    read_nc ds s e names scal func =
      match sumVars ds names with
      | .error er => .error er
      | .ok arrs =>
        if ds.times.isEmpty then .error .DataUnavailable
        else match reduceTime func arrs with
          | .error er => .error er
          | .ok arr =>
            .ok ((if scal ≠ 1 then arr.map (fun x => x * scal) else arr),
              meanTimeOf ds.times) := by
  unfold read_nc
  rw [hds]

lemma nc_maxSeries_cons (x : Rat) (xs : List Rat) :
    specMaxSeries (x :: xs) = xs.foldl max x := by
  simp [specMaxSeries, List.foldl_cons, max_self]

lemma nc_minSeries_cons (x : Rat) (xs : List Rat) :
    specMinSeries (x :: xs) = xs.foldl min x := by
  simp [specMinSeries, List.foldl_cons, min_self]

lemma nc_scal_length (arr : List Rat) (n : Nat) (hl : arr.length = n) (scal : Rat) :
    (if scal ≠ 1 then arr.map (fun x => x * scal) else arr).length = n := by
  by_cases hscal : scal = 1 <;> simp [hscal, hl]

lemma nc_scal_getD (arr : List Rat) (n : Nat) (hl : arr.length = n) (scal : Rat)
    (j : Nat) (hj : j < n) :
    (if scal ≠ 1 then arr.map (fun x => x * scal) else arr).getD j 0 =
      arr.getD j 0 * scal := by
  by_cases hscal : scal = 1
  · subst hscal
    simp
  · simp only [ne_eq, hscal, not_false_iff, if_pos]
    exact nc_getD_map _ arr j (by omega)

lemma nc_colfold (f : Rat → Rat → Rat) (g : List Rat) (gs : List (List Rat))
    (n : Nat) (hg0 : g.length = n) (hrows : ∀ h ∈ gs, h.length = n)
    (j : Nat) (hj : j < n) :
    (cellFold f (g :: gs)).getD j 0 =
      (gs.map (fun row => row.getD j 0)).foldl f (g.getD j 0) := by
  obtain ⟨_, l2⟩ := nc_cellFold_step f g gs n hg0 hrows
  rw [show cellFold f (g :: gs) = gs.foldl (fun acc h => List.zipWith f acc h) g
    from rfl, l2 j hj, List.foldl_map]

lemma nc_cellFold_len (f : Rat → Rat → Rat) (g : List Rat)
    (gs : List (List Rat)) (n : Nat) (hg0 : g.length = n)
    (hrows : ∀ h ∈ gs, h.length = n) :
    (cellFold f (g :: gs)).length = n :=
  (nc_cellFold_step f g gs n hg0 hrows).1

/-- C2: the selector sums the named variables element-wise first, then
reduces over the time dimension — "mean" is the per-cell arithmetic mean of
the summed series, "max"/"min" the per-cell maximum/minimum — and finally
multiplies by the scale factor; with a single time sample the reduction is
the identity under any of the three reducers. -/
theorem C2_aggregation (ds : DataSet) (s e : Rat) (names : List String)
    (scal : Rat) (func : String) (n : Nat)
    (hwf : ds.WF n)
    (hsel : ds.times.length ≤ 1 ∨ ∀ t ∈ ds.times, s ≤ t ∧ t ≤ e)
    (hpres : ∀ v ∈ names, (lookupVar ds v).isSome)
    (hne : names ≠ [])
    (hT : ds.times ≠ [])
    (hfunc : func = "mean" ∨ func = "max" ∨ func = "min") :
    ∃ out, read_nc ds s e names scal func = .ok (out, meanTimeOf ds.times) ∧
      out.length = n ∧
      (∀ j, j < n → out.getD j 0 =
        (if func = "mean" then specMeanSeries (seriesAt ds names j)
         else if func = "max" then specMaxSeries (seriesAt ds names j)
         else specMinSeries (seriesAt ds names j)) * scal) ∧
      (ds.times.length = 1 → ∀ j, j < n →
        out.getD j 0 = specSummedCell ds names 0 j * scal) := by
  have hds : (if 1 < ds.times.length then selTime ds s e else ds) = ds := by
    rcases hsel with h | h
    · rw [if_neg (by omega)]
    · by_cases hlen : 1 < ds.times.length
      · rw [if_pos hlen]
        exact nc_selTime_id ds s e n hwf h
      · rw [if_neg hlen]
  obtain ⟨S, hS, hSl, hSr, hSc⟩ := nc_sumVars_cells ds n hwf names hne hpres
  have hTpos : 0 < ds.times.length := List.length_pos.mpr hT
  have hSne : S ≠ [] := by
    intro hnil
    rw [hnil] at hSl
    simp at hSl
    omega
  obtain ⟨g, gs, rfl⟩ := List.exists_cons_of_ne_nil hSne
  have hg0 : g.length = n := by
    have := hSr 0 hTpos
    simpa using this
  have hrows : ∀ h ∈ gs, h.length = n := by
    intro h hh
    obtain ⟨i, hi, rfl⟩ := List.getElem_of_mem hh
    have hib : i + 1 < ds.times.length := by
      rw [← hSl]
      simp
      omega
    have := hSr (i + 1) hib
    rw [List.getD_cons_succ, List.getD_eq_getElem _ _ hi] at this
    exact this
  have hseries : ∀ j, j < n → seriesAt ds names j =
      (g :: gs).map (fun row => row.getD j 0) := by
    intro j hj
    apply List.ext_getElem
    · have hSl' := hSl
      simp at hSl'
      simp [seriesAt]
      omega
    · intro i h1 h2
      have hi : i < ds.times.length := by simpa [seriesAt] using h1
      simp only [seriesAt, List.getElem_map, List.getElem_range]
      rw [← List.getD_eq_getElem (g :: gs) [] (by rw [hSl]; exact hi)]
      exact (hSc i j hi hj).symm
  have hisE : ds.times.isEmpty = false := by
    cases h : ds.times with
    | nil => exact absurd h hT
    | cons x xs => rfl

  have hcolsum : ∀ j, j < n →
      (cellFold (fun x y => x + y) (g :: gs)).getD j 0 =
        g.getD j 0 + (gs.map (fun row => row.getD j 0)).sum := by
    intro j hj
    rw [nc_colfold (fun x y => x + y) g gs n hg0 hrows j hj, nc_foldl_add]
  rcases hfunc with hf | hf | hf
  · -- func = "mean"
    subst hf
    have hred : reduceTime "mean" (g :: gs) = .ok (meanCells (g :: gs)) := by
      simp [reduceTime]
    have hlen0 : (meanCells (g :: gs)).length = n := by
      simp only [meanCells, List.length_map]
      exact nc_cellFold_len _ g gs n hg0 hrows
    refine ⟨if scal ≠ 1 then (meanCells (g :: gs)).map (fun x => x * scal)
      else meanCells (g :: gs), ?_, nc_scal_length _ n hlen0 scal, ?_, ?_⟩
    · rw [nc_read_nc_eq ds s e names scal "mean" hds, hS]
      simp only [hisE, Bool.false_eq_true, if_false, hred]
    · intro j hj
      rw [nc_scal_getD _ n hlen0 scal j hj, if_pos rfl, hseries j hj]
      congr 1
      have hcf : (cellFold (fun x y => x + y) (g :: gs)).length = n :=
        nc_cellFold_len _ g gs n hg0 hrows
      rw [show meanCells (g :: gs) =
          (cellFold (fun x y => x + y) (g :: gs)).map
            (fun x => x / (((g :: gs).length : Nat) : Rat)) from rfl,
        nc_getD_map _ _ j (by omega), hcolsum j hj]
      simp [specMeanSeries]
    · intro h1 j hj
      rw [nc_scal_getD _ n hlen0 scal j hj]
      congr 1
      have hone : gs = [] := by
        have := hSl
        rw [h1] at this
        simpa using this
      subst hone
      rw [show meanCells [g] =
          (cellFold (fun x y => x + y) [g]).map
            (fun x => x / ((([g] : List (List Rat)).length : Nat) : Rat)) from rfl,
        nc_getD_map _ _ j (by
          have := nc_cellFold_len (fun x y => x + y) g [] n hg0 (by simp)
          omega)]
      have hc : (cellFold (fun x y => x + y) [g]).getD j 0 = g.getD j 0 := rfl
      rw [hc]
      have hcell := hSc 0 j (by omega) hj
      simp only [List.getD_cons_zero] at hcell
      rw [← hcell]
      norm_num
  · -- func = "max"
    subst hf
    have hred : reduceTime "max" (g :: gs) = .ok (maxCells (g :: gs)) := by
      simp [reduceTime]
    have hlen0 : (maxCells (g :: gs)).length = n :=
      nc_cellFold_len _ g gs n hg0 hrows
    refine ⟨if scal ≠ 1 then (maxCells (g :: gs)).map (fun x => x * scal)
      else maxCells (g :: gs), ?_, nc_scal_length _ n hlen0 scal, ?_, ?_⟩
    · rw [nc_read_nc_eq ds s e names scal "max" hds, hS]
      simp only [hisE, Bool.false_eq_true, if_false, hred]
    · intro j hj
      rw [nc_scal_getD _ n hlen0 scal j hj, if_neg (by decide), if_pos rfl,
        hseries j hj, List.map_cons, nc_maxSeries_cons]
      congr 1
      exact nc_colfold max g gs n hg0 hrows j hj
    · intro h1 j hj
      rw [nc_scal_getD _ n hlen0 scal j hj]
      congr 1
      have hone : gs = [] := by
        have := hSl
        rw [h1] at this
        simpa using this
      subst hone
      have hc : maxCells [g] = g := rfl
      rw [hc]
      have hcell := hSc 0 j (by omega) hj
      simp only [List.getD_cons_zero] at hcell
      exact hcell
  · -- func = "min"
    subst hf
    have hred : reduceTime "min" (g :: gs) = .ok (minCells (g :: gs)) := by
      simp [reduceTime]
    have hlen0 : (minCells (g :: gs)).length = n :=
      nc_cellFold_len _ g gs n hg0 hrows
    refine ⟨if scal ≠ 1 then (minCells (g :: gs)).map (fun x => x * scal)
      else minCells (g :: gs), ?_, nc_scal_length _ n hlen0 scal, ?_, ?_⟩
    · rw [nc_read_nc_eq ds s e names scal "min" hds, hS]
      simp only [hisE, Bool.false_eq_true, if_false, hred]
    · intro j hj
      rw [nc_scal_getD _ n hlen0 scal j hj, if_neg (by decide), if_neg (by decide),
        hseries j hj, List.map_cons, nc_minSeries_cons]
      congr 1
      exact nc_colfold min g gs n hg0 hrows j hj
    · intro h1 j hj
      rw [nc_scal_getD _ n hlen0 scal j hj]
      congr 1
      have hone : gs = [] := by
        have := hSl
        rw [h1] at this
        simpa using this
      subst hone
      have hc : minCells [g] = g := rfl
      rw [hc]
      have hcell := hSc 0 j (by omega) hj
      simp only [List.getD_cons_zero] at hcell
      exact hcell

/-- Witness for C2 on a two-sample, two-variable dataset with scale 2. -/
theorem C2_witness :
    (dsTwo.WF 2 ∧ (∀ v ∈ ["a", "b"], (lookupVar dsTwo v).isSome) ∧
     dsTwo.times ≠ [] ∧ (∀ t ∈ dsTwo.times, (0 : Rat) ≤ t ∧ t ≤ 1)) ∧
    (∃ out, read_nc dsTwo 0 1 ["a", "b"] 2 "mean" =
        .ok (out, meanTimeOf dsTwo.times) ∧
      out.length = 2 ∧
      (∀ j, j < 2 → out.getD j 0 =
        (if "mean" = "mean" then specMeanSeries (seriesAt dsTwo ["a", "b"] j)
         else if "mean" = "max" then specMaxSeries (seriesAt dsTwo ["a", "b"] j)
         else specMinSeries (seriesAt dsTwo ["a", "b"] j)) * 2) ∧
      (dsTwo.times.length = 1 → ∀ j, j < 2 →
        out.getD j 0 = specSummedCell dsTwo ["a", "b"] 0 j * 2)) := by
  have hwf : dsTwo.WF 2 := by
    unfold DataSet.WF
    decide
  have hpres : ∀ v ∈ ["a", "b"], (lookupVar dsTwo v).isSome := by decide
  have hT : dsTwo.times ≠ [] := by simp [dsTwo]
  have hwin : ∀ t ∈ dsTwo.times, (0 : Rat) ≤ t ∧ t ≤ 1 := by
    intro t ht
    simp only [dsTwo] at ht
    rcases List.mem_cons.mp ht with rfl | ht2
    · norm_num
    · rcases List.mem_cons.mp ht2 with rfl | ht3
      · norm_num
      · simp at ht3
  exact ⟨⟨hwf, hpres, hT, hwin⟩,
    C2_aggregation dsTwo 0 1 ["a", "b"] 2 "mean" 2 hwf (Or.inr hwin) hpres
      (by simp) hT (Or.inl rfl)⟩
